import Mathlib

/-!
Verification of the CW-Hub identity-reconciliation and coaching pipeline.

Each Python source function is shallowly embedded as an executable Lean
definition over `List Char` strings and `ℚ` numbers; dictionaries are
modelled as insertion-ordered association lists with last-write-wins
insertion (`dictInsert`), matching CPython dict semantics. Fallible code
(`stat[key]` on a possibly missing key) returns `Except`.
-/

namespace PyStr

/-- Whitespace characters recognised by the model (the ASCII subset of
Python's `str.strip` / `\s`). -/
def isWs (c : Char) : Bool :=
  c = ' ' || c = '\t' || c = '\n' || c = '\r'

/-- Combining marks (Unicode category Mn) present in the modelled alphabet:
U+0301 COMBINING ACUTE ACCENT and U+0303 COMBINING TILDE. -/
def isMn (c : Char) : Bool :=
  c = Char.ofNat 0x301 || c = Char.ofNat 0x303

/-- NFD decomposition for the modelled alphabet: precomposed Latin vowels
with acute accent and n-tilde decompose to base letter + combining mark;
every other character is its own decomposition. -/
def nfdChar : Char → List Char
  | 'á' => ['a', Char.ofNat 0x301]
  | 'é' => ['e', Char.ofNat 0x301]
  | 'í' => ['i', Char.ofNat 0x301]
  | 'ó' => ['o', Char.ofNat 0x301]
  | 'ú' => ['u', Char.ofNat 0x301]
  | 'ñ' => ['n', Char.ofNat 0x303]
  | 'Á' => ['A', Char.ofNat 0x301]
  | 'É' => ['E', Char.ofNat 0x301]
  | 'Í' => ['I', Char.ofNat 0x301]
  | 'Ó' => ['O', Char.ofNat 0x301]
  | 'Ú' => ['U', Char.ofNat 0x301]
  | 'Ñ' => ['N', Char.ofNat 0x303]
  | c => [c]

/-- `strip_accents`: NFD-decompose and drop combining marks
(`sync_hubstaff.py` / `map_hubstaff_users.py`). -/
def strip_accents (s : List Char) : List Char :=
  (s.flatMap nfdChar).filter (fun c => !isMn c)

/-- ASCII case folding, the fragment of Python `str.lower` exercised by the
modelled alphabet (accented letters in the alphabet are already lowercase). -/
def lowerChar (c : Char) : Char :=
  if 65 ≤ c.toNat ∧ c.toNat ≤ 90 then Char.ofNat (c.toNat + 32) else c

def lowerStr (s : List Char) : List Char := s.map lowerChar

/-- Python `str.strip()`: drop whitespace from both ends. -/
def pyStrip (s : List Char) : List Char :=
  ((s.dropWhile isWs).reverse.dropWhile isWs).reverse

/-- Python `str.replace("  ", " ")`: replace non-overlapping occurrences of
two spaces by one space, scanning left to right. -/
def replaceDbl : List Char → List Char
  | [] => []
  | [c] => [c]
  | a :: b :: rest =>
    if a = ' ' ∧ b = ' ' then ' ' :: replaceDbl rest
    else a :: replaceDbl (b :: rest)

/-- No two adjacent space characters anywhere in the string. -/
def noDbl : List Char → Bool
  | a :: b :: rest => !(a == ' ' && b == ' ') && noDbl (b :: rest)
  | _ => true

/-- `normalize` from `sync_hubstaff.py` lines 46-47 and
`map_hubstaff_users.py` lines 39-40:
`strip_accents(name).lower().strip().replace("  ", " ")`. -/
def normalize (s : List Char) : List Char :=
  replaceDbl (pyStrip (lowerStr (strip_accents s)))

/-- The roster-name key of `generate_coaching.py` lines 60 and 64:
`name.lower().strip().replace("  ", " ")` (no accent stripping). -/
def nameKey (s : List Char) : List Char :=
  replaceDbl (pyStrip (lowerStr s))

/-- Worker for `collapseWs`; the flag records whether the previous
character was whitespace (so a run emits only one space). -/
def collapseWsAux : Bool → List Char → List Char
  | _, [] => []
  | inRun, c :: rest =>
    if isWs c then
      (if inRun then collapseWsAux true rest else ' ' :: collapseWsAux true rest)
    else c :: collapseWsAux false rest

/-- `re.sub(r"\s+", " ", ·)`: collapse every whitespace run to one space. -/
def collapseWs (s : List Char) : List Char := collapseWsAux false s

/-- `normalize_name` from `migrate_airtable_scores.py` lines 108-111:
`re.sub(r"\s+", " ", name.strip().lower())` (empty input stays empty). -/
def normalize_name (s : List Char) : List Char :=
  collapseWs (lowerStr (pyStrip s))

/-- Worker for `pySplit`; `cur` is the current token, reversed. -/
def pySplitAux : List Char → List Char → List (List Char)
  | cur, [] => if cur = [] then [] else [cur.reverse]
  | cur, c :: rest =>
    if isWs c then
      (if cur = [] then pySplitAux [] rest else cur.reverse :: pySplitAux [] rest)
    else pySplitAux (c :: cur) rest

/-- Python tokenisation `str.split()`: split on whitespace runs,
discarding empty tokens. -/
def pySplit (s : List Char) : List (List Char) := pySplitAux [] s

end PyStr

/-- Round-half-even on rationals (the tie rule of Python's `round`). -/
def roundHalfEven (x : ℚ) : ℤ :=
  if x - ⌊x⌋ = 1/2 then (if 2 ∣ ⌊x⌋ then ⌊x⌋ else ⌊x⌋ + 1) else round x

/-- Python `round(x, 2)` modelled exactly on rationals. -/
def pyRound2 (x : ℚ) : ℚ :=
  (roundHalfEven (x * 100) : ℚ) / 100

/-- Insertion into a CPython-style dict modelled as an insertion-ordered
association list: an existing key keeps its position and gets the new value,
a fresh key is appended. -/
def dictInsert {K V : Type} [DecidableEq K] (m : List (K × V)) (k : K) (v : V) :
    List (K × V) :=
  if m.any (fun p => p.1 = k) then
    m.map (fun p => if p.1 = k then (k, v) else p)
  else m ++ [(k, v)]

/-- Dict lookup: value of the entry with the given key (keys are unique in
every dict built by `dictInsert`). -/
def dictGet? {K V : Type} [DecidableEq K] (m : List (K × V)) (k : K) : Option V :=
  (m.find? (fun p => p.1 = k)).map (·.2)

namespace GenerateCoaching

open PyStr

/-- A `chatter_daily_stats` row. Each KPI is `Option ℚ`: `none` models a
missing dictionary key (`stat.get(k, 0)` defaults it to 0, `stat[k]` raises).
The server-side `date=eq.{date}` filter is outside the model: the input list
is already the selected day's rows. -/
structure Stat where
  employee_name : List Char
  golden_ratio : Option ℚ
  fan_cvr : Option ℚ
  sales_per_hour : Option ℚ
  unlock_rate : Option ℚ
  clocked_hours : Option ℚ
  sales : Option ℚ
  fans_chatted : Option ℚ
  deriving DecidableEq, Repr

structure Flag where
  kpi : List Char
  value : ℚ
  threshold : ℚ
  deriving DecidableEq, Repr

/-- One rule of `identify_red_flags` (`generate_coaching.py` lines 85-92):
the guard is `stat.get(key, 0) < threshold` but the recorded value is
`stat[key]`, which raises `KeyError(key)` when the key is missing. -/
def flagStep (flags : List Flag) (label dictKey : List Char) (v : Option ℚ)
    (thr : ℚ) : Except (List Char) (List Flag) :=
  if v.getD 0 < thr then
    match v with
    | some x => .ok (flags ++ [⟨label, x, thr⟩])
    | none => .error dictKey
  else .ok flags

/-- `identify_red_flags` (`generate_coaching.py` lines 81-94); the error case
is Python's `KeyError` carrying the missing dictionary key. -/
def identify_red_flags (stat : Stat) : Except (List Char) (List Flag) := do
  let f1 ← flagStep [] "Golden Ratio".data "golden_ratio".data stat.golden_ratio 30
  let f2 ← flagStep f1 "Fan CVR".data "fan_cvr".data stat.fan_cvr 8
  let f3 ← flagStep f2 "$/hr".data "sales_per_hour".data stat.sales_per_hour 40
  flagStep f3 "Unlock Rate".data "unlock_rate".data stat.unlock_rate 20

/-- `get_last_coaching` (`generate_coaching.py` lines 70-79): the HTTP fetch
of the most recent `coaching_logs` row is abstracted to its result
(`none` = no prior record); dates are day numbers, so Python's
`(today - last_date).days` is plain subtraction. -/
def get_last_coaching (today : ℤ) (lastLog : Option ℤ) : ℤ :=
  match lastLog with
  | none => 999
  | some d => today - d

/-- A `chatters` roster row as selected by `get_chatter_performance`. -/
structure Chatter where
  full_name : List Char
  team_name : List Char
  status : List Char
  airtable_role : List Char
  deriving DecidableEq, Repr

/-- The server-side filter of the `chatters` query in
`get_chatter_performance` (`generate_coaching.py` lines 57-59):
`team_name=eq.{team}&status=eq.Active&airtable_role=eq.Chatter`. -/
def fetchTeamChatters (roster : List Chatter) (team : List Char) : List Chatter :=
  roster.filter (fun c =>
    decide (c.team_name = team ∧ c.status = "Active".data ∧
      c.airtable_role = "Chatter".data))

/-- `get_chatter_performance` (`generate_coaching.py` lines 51-68): keep a
stats row iff its lower/strip/replace name key is a team chatter's key and
`stat.get("clocked_hours", 0) >= MIN_HOURS` (= 4). -/
def get_chatter_performance (roster : List Chatter) (stats : List Stat)
    (team : List Char) : List Stat :=
  let chatterNames := (fetchTeamChatters roster team).map (fun c => nameKey c.full_name)
  stats.filter (fun s =>
    decide (nameKey s.employee_name ∈ chatterNames ∧ 4 ≤ s.clocked_hours.getD 0))

structure TalkingPoint where
  kpi : List Char
  target : List Char
  actions : List (List Char)
  deriving DecidableEq, Repr

/-- The fixed talking-point template for one flag label
(`generate_coaching.py` lines 99-124); an unknown label yields nothing. -/
def tpFor (kpi : List Char) : Option TalkingPoint :=
  if kpi = "Golden Ratio".data then
    some ⟨"Golden Ratio".data, "≥30%".data,
      ["Review PPV sending frequency".data, "Check message quality".data,
       "Analyze top performer scripts".data]⟩
  else if kpi = "Fan CVR".data then
    some ⟨"Fan CVR".data, "≥8%".data,
      ["Review fan engagement approach".data, "Check first-message strategy".data,
       "Analyze conversion funnel".data]⟩
  else if kpi = "$/hr".data then
    some ⟨"$/hr".data, "≥$40".data,
      ["Review time management".data, "Check high-value fan prioritization".data,
       "Analyze sales techniques".data]⟩
  else if kpi = "Unlock Rate".data then
    some ⟨"Unlock Rate".data, "≥20%".data,
      ["Review PPV pricing strategy".data, "Check content quality".data,
       "Analyze successful unlocks".data]⟩
  else none

/-- `generate_talking_points` (`generate_coaching.py` lines 96-125); the
`stat` parameter of the source is unused there and omitted. -/
def generate_talking_points (flags : List Flag) : List TalkingPoint :=
  flags.filterMap (fun f => tpFor f.kpi)

/-- The denormalized KPI snapshot stored on a task
(`generate_coaching.py` lines 196-204). -/
structure KpiSnapshot where
  sales : ℚ
  sales_per_hour : ℚ
  golden_ratio : ℚ
  fan_cvr : ℚ
  unlock_rate : ℚ
  fans_chatted : ℚ
  clocked_hours : ℚ
  deriving DecidableEq, Repr

def snapshot (s : Stat) : KpiSnapshot :=
  ⟨s.sales.getD 0, s.sales_per_hour.getD 0, s.golden_ratio.getD 0,
   s.fan_cvr.getD 0, s.unlock_rate.getD 0, s.fans_chatted.getD 0,
   s.clocked_hours.getD 0⟩

def upperChar (c : Char) : Char :=
  if 97 ≤ c.toNat ∧ c.toNat ≤ 122 then Char.ofNat (c.toNat - 32) else c

/-- Python `str.capitalize()` on the modelled (ASCII) alphabet. -/
def pyCapitalize : List Char → List Char
  | [] => []
  | c :: rest => upperChar c :: rest.map lowerChar

structure CoachingTask where
  date : List Char
  chatter_name : List Char
  team_tl : List Char
  priority : ℤ
  perf_score : Option ℚ
  days_since_coaching : ℤ
  red_flags : List Flag
  talking_points : List TalkingPoint
  kpis : KpiSnapshot
  deriving DecidableEq, Repr

/-- The priority accumulation of `main` (`generate_coaching.py` lines
174-180): `priority = 0`, `+2` when `days_since >= COACHING_OVERDUE_DAYS`
(= 2), then `+2` when at least two red flags else `+1` when at least one. -/
def rowPriority (days : ℤ) (nflags : ℕ) : ℤ :=
  (if 2 ≤ days then 2 else 0) +
    (if 2 ≤ nflags then 2 else if 1 ≤ nflags then 1 else 0)

/-- The per-row tail of `main`'s loop (`generate_coaching.py` lines
174-207): `continue` (no task) when the priority is 0, otherwise build the
task dictionary. -/
def processStat (todayStr tlName : List Char) (stat : Stat) (days : ℤ)
    (flags : List Flag) : Option CoachingTask :=
  let priority := rowPriority days flags.length
  if priority = 0 then none
  else some
    { date := todayStr
      chatter_name := stat.employee_name
      team_tl := pyCapitalize tlName
      priority := priority
      perf_score := stat.sales_per_hour
      days_since_coaching := days
      red_flags := flags
      talking_points := generate_talking_points flags
      kpis := snapshot stat }

/-- One team's pass of `main` (`generate_coaching.py` lines 165-210):
evaluate every eligible stats row in order; `hist` abstracts the
`coaching_logs` lookup of `get_last_coaching`. A `KeyError` escaping
`identify_red_flags` aborts the run with that error. -/
def runTeam (roster : List Chatter) (stats : List Stat)
    (hist : List Char → Option ℤ) (today : ℤ) (todayStr tlName team : List Char) :
    Except (List Char) (List CoachingTask) :=
  (get_chatter_performance roster stats team).foldlM
    (fun acc s => do
      let days := get_last_coaching today (hist s.employee_name)
      let flags ← identify_red_flags s
      match processStat todayStr tlName s days flags with
      | some t => pure (acc ++ [t])
      | none => pure acc)
    []

/-- Modelled from the spec (section 4.4 priority scoring): the overdue
bonus, `+2 if days_since_last_coaching >= 2`. -/
def specOverdueBonus (days : ℤ) : ℤ := if 2 ≤ days then 2 else 0

/-- Modelled from the spec (section 4.4 priority scoring): the flag bonus,
`+2 if flag count ≥ 2; else +1 if flag count == 1; +0 if no flags`. -/
def specFlagBonus (n : ℕ) : ℤ := if 2 ≤ n then 2 else if n = 1 then 1 else 0

end GenerateCoaching

namespace SyncHubstaff

open PyStr

/-- Constants of `sync_hubstaff.py` lines 36-37. -/
def DEFAULT_LOOKBACK_DAYS : ℤ := 14

def MAX_BACKFILL_DAYS : ℤ := 90

def digitVal (c : Char) : Option ℕ :=
  if 48 ≤ c.toNat ∧ c.toNat ≤ 57 then some (c.toNat - 48) else none

def pyDigits? (l : List Char) : Option ℕ :=
  if l = [] then none
  else l.foldl (fun acc c => acc.bind (fun n => (digitVal c).map (fun d => 10 * n + d)))
    (some 0)

/-- Python `int(str)` on the modelled inputs: surrounding whitespace, an
optional sign, then a nonempty digit run; anything else raises `ValueError`
(= `none`). -/
def pyInt? (s : List Char) : Option ℤ :=
  match pyStrip s with
  | [] => none
  | '+' :: ds => (pyDigits? ds).map (fun n => (n : ℤ))
  | '-' :: ds => (pyDigits? ds).map (fun n => -(n : ℤ))
  | ds => (pyDigits? ds).map (fun n => (n : ℤ))

/-- `get_lookback_days` (`sync_hubstaff.py` lines 124-134): scan `argv[1:]`
for `--backfill N`; a parse failure falls through and scanning continues;
no hit yields the default. -/
def get_lookback_days : List (List Char) → ℤ
  | a :: b :: rest =>
    if a = "--backfill".data then
      match pyInt? b with
      | some n => min n MAX_BACKFILL_DAYS
      | none => get_lookback_days (b :: rest)
    else get_lookback_days (b :: rest)
  | _ => DEFAULT_LOOKBACK_DAYS

/-- A `chatters` row as loaded in `sync_hours` (`sync_hubstaff.py` line
164-168). -/
structure ChatterRec where
  id : List Char
  full_name : List Char
  hubstaff_user_id : Option ℕ
  deriving DecidableEq, Repr

/-- The dict-building loop of `sync_hours` (`sync_hubstaff.py` lines
170-179). `if c.get("hubstaff_user_id")` is Python truthiness: absent or 0
skips the id map; every chatter enters the name map (later same-key
chatters overwrite earlier ones). -/
def buildMaps (chatters : List ChatterRec) :
    List (ℕ × List Char) × List (List Char × List Char) :=
  chatters.foldl
    (fun maps c =>
      let byId := match c.hubstaff_user_id with
        | some k => if k = 0 then maps.1 else dictInsert maps.1 k c.id
        | none => maps.1
      (byId, dictInsert maps.2 (normalize c.full_name) c.id))
    ([], [])

/-- A `daily_activities` record (`sync_hubstaff.py` lines 235-257): the
fields are read with `.get`, so each may be absent. -/
structure Activity where
  user_id : Option ℕ
  tracked : Option ℕ
  date : Option (List Char)
  deriving DecidableEq, Repr

inductive Strategy
  | byKey
  | byName
  deriving DecidableEq, Repr

/-- `member_names.get(user_id, "")` (`sync_hubstaff.py` line 237). -/
def userNameOf (memberNames : List (ℕ × List Char)) (a : Activity) : List Char :=
  match a.user_id with
  | none => []
  | some uid => (dictGet? memberNames uid).getD []

/-- The two-strategy match of `sync_hours` (`sync_hubstaff.py` lines
239-248): `chatter_by_hsid.get(user_id)` first, then the normalized-name
fallback. -/
def resolveAct (byId : List (ℕ × List Char)) (byName : List (List Char × List Char))
    (memberNames : List (ℕ × List Char)) (a : Activity) :
    Option (List Char × Strategy) :=
  match a.user_id.bind (fun uid => dictGet? byId uid) with
  | some cid => some (cid, .byKey)
  | none =>
    match dictGet? byName (normalize (userNameOf memberNames a)) with
    | some cid => some (cid, .byName)
    | none => none

/-- A pending `chatter_hours` row (`sync_hubstaff.py` lines 268-273);
`synced_at` is a wall-clock timestamp and is outside the model. -/
structure HoursRow where
  chatter_id : List Char
  date : List Char
  hours_worked : ℚ
  deriving DecidableEq, Repr

/-- `f"{chatter_id}:{date}"` (`sync_hubstaff.py` line 260). -/
def dedupKey (cid date : List Char) : List Char := cid ++ ':' :: date

/-- The in-place merge of `sync_hours` (`sync_hubstaff.py` lines 262-265):
find the first row with this chatter and date and add the hours, rounding
to 2 decimals. -/
def mergeRow : List HoursRow → List Char → List Char → ℚ → List HoursRow
  | [], _, _, _ => []
  | r :: rs, cid, d, h =>
    if r.chatter_id = cid ∧ r.date = d then
      { r with hours_worked := pyRound2 (r.hours_worked + h) } :: rs
    else r :: mergeRow rs cid d h

/-- The mutable run state of `sync_hours` (`sync_hubstaff.py` lines
185-189): `all_rows`, `seen_keys`, `unmatched`, and the two counters. -/
structure SyncState where
  rows : List HoursRow
  seen : List (List Char)
  unmatched : List (List Char × Option ℕ)
  matched_by_id : ℕ
  matched_by_name : ℕ
  deriving DecidableEq, Repr

def initState : SyncState := ⟨[], [], [], 0, 0⟩

/-- Invariant of the accumulation: every pending row's dedup key is in
`seen`, and no two pending rows share a (chatter_id, date) pair. -/
def rowsInv (st : SyncState) : Prop :=
  (∀ r ∈ st.rows, dedupKey r.chatter_id r.date ∈ st.seen) ∧
  List.Pairwise
    (fun r1 r2 : HoursRow => ¬(r1.chatter_id = r2.chatter_id ∧ r1.date = r2.date))
    st.rows

/-- One iteration of the per-activity loop (`sync_hubstaff.py` lines
235-273). -/
def syncStep (byId : List (ℕ × List Char)) (byName : List (List Char × List Char))
    (memberNames : List (ℕ × List Char)) (st : SyncState) (a : Activity) :
    SyncState :=
  let user_name := userNameOf memberNames a
  match resolveAct byId byName memberNames a with
  | none =>
    if user_name ≠ [] then
      { st with unmatched := dictInsert st.unmatched user_name a.user_id }
    else st
  | some (cid, strat) =>
    let st1 := match strat with
      | .byKey => { st with matched_by_id := st.matched_by_id + 1 }
      | .byName => { st with matched_by_name := st.matched_by_name + 1 }
    let hours := pyRound2 ((a.tracked.getD 0 : ℚ) / 3600)
    let date := a.date.getD []
    if date ≠ [] ∧ 0 < hours then
      let key := dedupKey cid date
      if key ∈ st1.seen then { st1 with rows := mergeRow st1.rows cid date hours }
      else { st1 with seen := st1.seen ++ [key],
                      rows := st1.rows ++ [⟨cid, date, hours⟩] }
    else st1

/-- The whole accumulation of `sync_hours` (`sync_hubstaff.py` lines
191-273): the state persists across organizations, each organization
carries its own `member_names` directory and activity list. -/
def syncRun (chatters : List ChatterRec)
    (orgs : List (List (ℕ × List Char) × List Activity)) : SyncState :=
  let maps := buildMaps chatters
  orgs.foldl (fun st org => org.2.foldl (syncStep maps.1 maps.2 org.1) st) initState

end SyncHubstaff

namespace MapHubstaffUsers

open PyStr

/-- A Supabase chatter as used by the matching loop of
`map_hubstaff_users.py`. -/
structure ChatterC where
  id : List Char
  full_name : List Char
  deriving DecidableEq, Repr

/-- The reduced first/last key of a candidate (`map_hubstaff_users.py`
lines 200-201): `f"{parts[0]} {parts[-1]}"` when the key has at least two
tokens, else the key itself. -/
def reducedKey (key : List Char) : List Char :=
  let ps := pySplit key
  if 2 ≤ ps.length then ps.headI ++ ' ' :: ps.getLastI else key

/-- The first/last-token fallback stage (`map_hubstaff_users.py` lines
194-210): with at least two tokens in the incoming normalized name, scan
`name_to_chatter` in insertion order and take the first candidate whose
reduced key matches (`break` on the first hit); fewer than two tokens
skips the stage. -/
def firstLastFallback (norm_hs : List Char)
    (name_to_chatter : List (List Char × ChatterC)) : Option ChatterC :=
  let parts := pySplit norm_hs
  if 2 ≤ parts.length then
    let first_last := parts.headI ++ ' ' :: parts.getLastI
    (name_to_chatter.find? (fun kc => decide (first_last = reducedKey kc.1))).map (·.2)
  else none

end MapHubstaffUsers

namespace MigrateAirtable

open PyStr

structure ChatterM where
  id : List Char
  full_name : List Char
  deriving DecidableEq, Repr

/-- The best-ratio loop of `fuzzy_match_chatter` (`migrate_airtable_scores.py`
lines 119-125): `ratio > best_ratio` updates `best_ratio, best_match`. -/
def bestLoop (ratio : List Char → List Char → ℚ) (norm : List Char)
    (acc : ℚ × Option ChatterM) (l : List (List Char × ChatterM)) :
    ℚ × Option ChatterM :=
  l.foldl
    (fun acc kc => if acc.1 < ratio norm kc.1 then (ratio norm kc.1, some kc.2) else acc)
    acc

/-- `fuzzy_match_chatter` (`migrate_airtable_scores.py` lines 114-128),
parameterised by the similarity oracle (the source calls
`SequenceMatcher(None, norm, key).ratio()`): exact dict hit on the
normalized name first, otherwise keep the best strictly-improving ratio in
iteration order and accept it only at `>= 0.75`. -/
def fuzzy_match_chatter (ratio : List Char → List Char → ℚ) (name : List Char)
    (chatters_map : List (List Char × ChatterM)) : Option ChatterM :=
  match dictGet? chatters_map (normalize_name name) with
  | some c => some c
  | none =>
    let best := bestLoop ratio (normalize_name name)
      ((0 : ℚ), (none : Option ChatterM)) chatters_map
    if 3/4 ≤ best.1 then best.2 else none

end MigrateAirtable

namespace PyStr

/-- A character that NFD leaves alone and that is not a combining mark. -/
def stable (c : Char) : Prop := nfdChar c = [c] ∧ isMn c = false

lemma toNat_ofNat_small {n : ℕ} (h : n < 55296) : (Char.ofNat n).toNat = n := by
  have hv : n.isValidChar := Or.inl h
  simp [Char.ofNat, hv, Char.ofNatAux, Char.toNat, UInt32.toNat]

lemma stable_of_le122 {c : Char} (h : c.toNat ≤ 122) : stable c := by
  constructor
  · unfold nfdChar
    split <;> simp_all
  · have h1 : ¬(c = Char.ofNat 0x301) := by
      intro hc; subst hc; exact absurd h (by decide)
    have h2 : ¬(c = Char.ofNat 0x303) := by
      intro hc; subst hc; exact absurd h (by decide)
    simp [isMn, h1, h2]

lemma stable_mem_nfd {c d : Char} (hd : d ∈ nfdChar c) (hMn : isMn d = false) :
    stable d := by
  unfold nfdChar at hd
  split at hd
  all_goals
    first
    | (simp only [List.mem_cons, List.mem_singleton, List.not_mem_nil, or_false] at hd
       rcases hd with rfl | rfl
       · exact ⟨by decide, by decide⟩
       · exact absurd hMn (by decide))
    | (simp only [List.mem_singleton] at hd
       subst hd
       refine ⟨?_, hMn⟩
       unfold nfdChar
       split <;> simp_all)

lemma mem_strip_accents_stable {c : Char} {s : List Char} (hc : c ∈ strip_accents s) :
    stable c := by
  simp only [strip_accents, List.mem_filter, List.mem_flatMap, Bool.not_eq_true',
    Bool.not_eq_eq_eq_not, Bool.not_true] at hc
  obtain ⟨⟨d, _, hmem⟩, hMn⟩ := hc
  exact stable_mem_nfd hmem hMn

lemma strip_accents_eq_self {s : List Char} (h : ∀ c ∈ s, stable c) :
    strip_accents s = s := by
  induction s with
  | nil => rfl
  | cons a t ih =>
    have ha := h a (List.mem_cons_self a t)
    have ht := ih (fun c hc => h c (List.mem_cons_of_mem a hc))
    show List.filter _ ((a :: t).flatMap nfdChar) = a :: t
    rw [List.flatMap_cons, List.filter_append, ha.1]
    have ht' : List.filter (fun c => !isMn c) (t.flatMap nfdChar) = t := ht
    rw [ht', List.filter_cons]
    simp [ha.2]

lemma lowerChar_idem (c : Char) : lowerChar (lowerChar c) = lowerChar c := by
  by_cases h : 65 ≤ c.toNat ∧ c.toNat ≤ 90
  · have h1 : lowerChar c = Char.ofNat (c.toNat + 32) := by
      rw [lowerChar, if_pos h]
    have h2 : (Char.ofNat (c.toNat + 32)).toNat = c.toNat + 32 :=
      toNat_ofNat_small (by omega)
    rw [h1, lowerChar, if_neg]
    rw [h2]
    omega
  · have h1 : lowerChar c = c := by rw [lowerChar, if_neg h]
    rw [h1, h1]

lemma lowerChar_stable {c : Char} (h : stable c) : stable (lowerChar c) := by
  by_cases hc : 65 ≤ c.toNat ∧ c.toNat ≤ 90
  · rw [lowerChar, if_pos hc]
    exact stable_of_le122 (by rw [toNat_ofNat_small (by omega)]; omega)
  · rwa [lowerChar, if_neg hc]

lemma dropWhile_head_not {p : Char → Bool} :
    ∀ (l : List Char) (a : Char), (l.dropWhile p).head? = some a → p a = false := by
  intro l
  induction l with
  | nil => intro a ha; simp [List.dropWhile] at ha
  | cons c t ih =>
    intro a ha
    rw [List.dropWhile_cons] at ha
    by_cases hp : p c
    · rw [if_pos hp] at ha
      exact ih a ha
    · rw [if_neg hp] at ha
      simp only [List.head?_cons, Option.some.injEq] at ha
      subst ha
      exact Bool.not_eq_true _ ▸ hp

lemma mem_pyStrip {c : Char} {s : List Char} (hc : c ∈ pyStrip s) : c ∈ s := by
  rw [pyStrip, List.mem_reverse] at hc
  have h1 := (List.dropWhile_sublist (l := (s.dropWhile isWs).reverse) isWs).mem hc
  rw [List.mem_reverse] at h1
  exact (List.dropWhile_sublist isWs).mem h1

lemma head?_pyStrip {a : Char} {s : List Char} (hc : (pyStrip s).head? = some a) :
    isWs a = false := by
  obtain ⟨t, ht⟩ := List.dropWhile_suffix (l := (s.dropWhile isWs).reverse) isWs
  have hu : s.dropWhile isWs =
      (((s.dropWhile isWs).reverse.dropWhile isWs).reverse ++ t.reverse) := by
    rw [← List.reverse_append, ht, List.reverse_reverse]
  rcases he : ((s.dropWhile isWs).reverse.dropWhile isWs).reverse with _ | ⟨b, u⟩
  · rw [pyStrip, he] at hc
    simp at hc
  · rw [pyStrip, he] at hc
    simp only [List.head?_cons, Option.some.injEq] at hc
    subst hc
    refine dropWhile_head_not s b ?_
    rw [hu, he]
    simp

lemma getLast?_pyStrip {a : Char} {s : List Char}
    (hc : (pyStrip s).getLast? = some a) : isWs a = false := by
  rw [pyStrip, List.getLast?_reverse] at hc
  exact dropWhile_head_not _ a hc

lemma pyStrip_eq_self {s : List Char}
    (h1 : ∀ a, s.head? = some a → isWs a = false)
    (h2 : ∀ a, s.getLast? = some a → isWs a = false) : pyStrip s = s := by
  have d1 : s.dropWhile isWs = s := by
    cases s with
    | nil => rfl
    | cons c t =>
      rw [List.dropWhile_cons, if_neg]
      rw [h1 c rfl]
      simp
  rw [pyStrip, d1]
  have d2 : s.reverse.dropWhile isWs = s.reverse := by
    rcases hs : s.reverse with _ | ⟨c, t⟩
    · rfl
    · rw [List.dropWhile_cons, if_neg]
      have : s.getLast? = some c := by
        rw [← List.head?_reverse, hs, List.head?_cons]
      rw [h2 c this]
      simp
  rw [d2, List.reverse_reverse]

lemma replaceDbl_eq_nil_iff {l : List Char} : replaceDbl l = [] ↔ l = [] := by
  induction l using replaceDbl.induct with
  | case1 => simp [replaceDbl]
  | case2 c => simp [replaceDbl]
  | case3 a b rest h ih => simp [replaceDbl, if_pos h]
  | case4 a b rest h ih => simp [replaceDbl, if_neg h]

lemma head?_replaceDbl (l : List Char) : (replaceDbl l).head? = l.head? := by
  induction l using replaceDbl.induct with
  | case1 => rfl
  | case2 c => rfl
  | case3 a b rest h ih =>
    obtain ⟨rfl, rfl⟩ := h
    rfl
  | case4 a b rest h ih => simp [replaceDbl, if_neg h]

lemma getLast?_cons_ne_nil {x : Char} {L : List Char} (h : L ≠ []) :
    (x :: L).getLast? = L.getLast? := by
  rcases L with _ | ⟨c, t⟩
  · exact absurd rfl h
  · exact List.getLast?_cons_cons

lemma getLast?_replaceDbl (l : List Char) : (replaceDbl l).getLast? = l.getLast? := by
  induction l using replaceDbl.induct with
  | case1 => rfl
  | case2 c => rfl
  | case3 a b rest h ih =>
    obtain ⟨rfl, rfl⟩ := h
    rcases hr : rest with _ | ⟨c, t⟩
    · rfl
    · rw [← hr, replaceDbl, if_pos ⟨rfl, rfl⟩,
        @getLast?_cons_ne_nil ' ' (replaceDbl rest)
          (by rw [Ne, replaceDbl_eq_nil_iff, hr]; simp), ih,
        @getLast?_cons_ne_nil ' ' (' ' :: rest) (by simp),
        @getLast?_cons_ne_nil ' ' rest (by rw [hr]; simp)]
  | case4 a b rest h ih =>
    rw [replaceDbl, if_neg h,
      @getLast?_cons_ne_nil a (replaceDbl (b :: rest))
        (by rw [Ne, replaceDbl_eq_nil_iff]; simp), ih,
      @getLast?_cons_ne_nil a (b :: rest) (by simp)]

lemma mem_replaceDbl {c : Char} {l : List Char} (hc : c ∈ replaceDbl l) : c ∈ l := by
  induction l using replaceDbl.induct with
  | case1 => rw [replaceDbl] at hc; exact hc
  | case2 d => rw [replaceDbl] at hc; exact hc
  | case3 a b rest h ih =>
    obtain ⟨rfl, rfl⟩ := h
    rw [replaceDbl, if_pos ⟨rfl, rfl⟩] at hc
    rcases List.mem_cons.1 hc with rfl | hmem
    · exact List.mem_cons_self _ _
    · exact List.mem_cons_of_mem _ (List.mem_cons_of_mem _ (ih hmem))
  | case4 a b rest h ih =>
    rw [replaceDbl, if_neg h] at hc
    rcases List.mem_cons.1 hc with rfl | hmem
    · exact List.mem_cons_self _ _
    · exact List.mem_cons_of_mem _ (ih hmem)

lemma replaceDbl_of_noDbl {l : List Char} (h : noDbl l = true) :
    replaceDbl l = l := by
  induction l using replaceDbl.induct with
  | case1 => rfl
  | case2 c => rfl
  | case3 a b rest hab ih =>
    obtain ⟨rfl, rfl⟩ := hab
    simp [noDbl] at h
  | case4 a b rest hab ih =>
    rw [noDbl, Bool.and_eq_true] at h
    rw [replaceDbl, if_neg hab, ih h.2]

lemma mem_normalize_stable {c : Char} {s : List Char} (hc : c ∈ normalize s) :
    stable c ∧ lowerChar c = c := by
  have h2 : c ∈ lowerStr (strip_accents s) := mem_pyStrip (mem_replaceDbl hc)
  obtain ⟨d, hd, rfl⟩ := List.mem_map.1 h2
  exact ⟨lowerChar_stable (mem_strip_accents_stable hd), lowerChar_idem d⟩

lemma strip_accents_normalize (s : List Char) :
    strip_accents (normalize s) = normalize s :=
  strip_accents_eq_self (fun _ hc => (mem_normalize_stable hc).1)

lemma lowerStr_normalize (s : List Char) : lowerStr (normalize s) = normalize s := by
  rw [lowerStr]
  rw [List.map_congr_left (fun c hc => (mem_normalize_stable hc).2)]
  exact List.map_id _

lemma pyStrip_normalize (s : List Char) : pyStrip (normalize s) = normalize s := by
  refine pyStrip_eq_self (fun a ha => ?_) (fun a ha => ?_)
  · refine head?_pyStrip (a := a) (s := lowerStr (strip_accents s)) ?_
    rw [← head?_replaceDbl]
    exact ha
  · refine getLast?_pyStrip (a := a) (s := lowerStr (strip_accents s)) ?_
    rw [← getLast?_replaceDbl]
    exact ha

end PyStr

/-- Claim C4, counterexample: `normalize` is not idempotent. On `"a   b"`
(three spaces) one application leaves a double space (`replace("  ", " ")`
only halves space runs) and a second application shortens it again. -/
theorem C4_counterexample :
    PyStr.normalize (PyStr.normalize ['a', ' ', ' ', ' ', 'b']) ≠
      PyStr.normalize ['a', ' ', ' ', ' ', 'b'] := by
  decide

/-- Claim C4, amended: `normalize` is idempotent on every input whose
normalized form has no two adjacent spaces (equivalently: whose whitespace
runs survive at most pairwise); in general idempotence fails. -/
theorem C4_normalize_idem_of_single_spaces (s : List Char)
    (h : PyStr.noDbl (PyStr.normalize s) = true) :
    PyStr.normalize (PyStr.normalize s) = PyStr.normalize s := by
  show PyStr.replaceDbl
      (PyStr.pyStrip (PyStr.lowerStr (PyStr.strip_accents (PyStr.normalize s)))) =
    PyStr.normalize s
  rw [PyStr.strip_accents_normalize, PyStr.lowerStr_normalize,
    PyStr.pyStrip_normalize, PyStr.replaceDbl_of_noDbl h]

/-- Witness for C4's amended theorem at a concrete accented name. -/
theorem C4_witness :
    PyStr.normalize (PyStr.normalize "  Ána  Lópezñ ".data) =
      PyStr.normalize "  Ána  Lópezñ ".data :=
  C4_normalize_idem_of_single_spaces "  Ána  Lópezñ ".data (by decide)

/-- Claim C1 (code bug): the spec's "missing KPI defaults to 0 and is always
flagged, evaluation never fails" is contradicted by the code. The guard
`stat.get(k, 0) < thr` does fire on a missing KPI, but the appended value is
read with `stat[k]`, so `identify_red_flags` raises `KeyError` on any row
missing a low/absent KPI; on rows with all four KPIs present the flags are
exactly the strictly-below-threshold ones. -/
theorem C1_missing_kpi_keyerror :
    GenerateCoaching.identify_red_flags
        ⟨"Ann".data, none, none, none, none, none, none, none⟩ =
      Except.error "golden_ratio".data ∧
    (∀ name f sp u ch sl fc,
      GenerateCoaching.identify_red_flags ⟨name, none, f, sp, u, ch, sl, fc⟩ =
        Except.error "golden_ratio".data) ∧
    (∀ name g f sp u ch sl fc,
      GenerateCoaching.identify_red_flags
          ⟨name, some g, some f, some sp, some u, ch, sl, fc⟩ =
        Except.ok
          ((if g < 30 then [⟨"Golden Ratio".data, g, 30⟩] else []) ++
           (if f < 8 then [⟨"Fan CVR".data, f, 8⟩] else []) ++
           (if sp < 40 then [⟨"$/hr".data, sp, 40⟩] else []) ++
           (if u < 20 then [⟨"Unlock Rate".data, u, 20⟩] else []))) := by
  refine ⟨rfl, fun name f sp u ch sl fc => ?_, fun name g f sp u ch sl fc => ?_⟩
  · rfl
  · by_cases hg : g < 30 <;> by_cases hf : f < 8 <;> by_cases hsp : sp < 40 <;>
      by_cases hu : u < 20 <;>
      simp [GenerateCoaching.identify_red_flags, GenerateCoaching.flagStep,
        hg, hf, hsp, hu] <;>
      rfl

/-- Claim C2: the priority of an evaluated row is the sum of the spec's
overdue bonus and flag bonus, it always lies in {0,1,2,3,4}, a priority-0
row never creates a CoachingTask (`continue`), a missing prior coaching
record yields 999 days, and with 999 days the overdue branch always fires
(priority at least 2). -/
theorem C2_priority_decomposition (today days : ℤ)
    (flags : List GenerateCoaching.Flag) (todayStr tl : List Char)
    (stat : GenerateCoaching.Stat) :
    GenerateCoaching.rowPriority days flags.length =
        GenerateCoaching.specOverdueBonus days +
          GenerateCoaching.specFlagBonus flags.length ∧
      GenerateCoaching.rowPriority days flags.length ∈ ({0, 1, 2, 3, 4} : Set ℤ) ∧
      (GenerateCoaching.processStat todayStr tl stat days flags = none ↔
        GenerateCoaching.rowPriority days flags.length = 0) ∧
      GenerateCoaching.get_last_coaching today none = 999 ∧
      2 ≤ GenerateCoaching.rowPriority
        (GenerateCoaching.get_last_coaching today none) flags.length := by
  refine ⟨?_, ?_, ?_, rfl, ?_⟩
  · unfold GenerateCoaching.rowPriority GenerateCoaching.specOverdueBonus
      GenerateCoaching.specFlagBonus
    congr 1
    by_cases h2 : 2 ≤ flags.length
    · simp [h2]
    · by_cases h1 : flags.length = 1
      · simp [h2, h1]
      · have h0 : ¬(1 ≤ flags.length) := by omega
        simp [h2, h1, h0]
  · unfold GenerateCoaching.rowPriority
    by_cases hd : 2 ≤ days <;> by_cases h2 : 2 ≤ flags.length <;>
      by_cases h1 : 1 ≤ flags.length <;>
      simp [Set.mem_insert_iff, Set.mem_singleton_iff, hd, h2, h1]
  · by_cases hp : GenerateCoaching.rowPriority days flags.length = 0
    · simp [GenerateCoaching.processStat, hp]
    · simp [GenerateCoaching.processStat, hp]
  · show (2 : ℤ) ≤ GenerateCoaching.rowPriority 999 flags.length
    unfold GenerateCoaching.rowPriority
    norm_num
    split <;> omega

/-- Claim C10: the lookback window never exceeds 90 days; `--backfill N`
with a parseable integer N yields `min N 90`; a missing flag, a flag in
final position (no value), or a flag with an unparseable value yields the
default of 14 days. -/
theorem C10_lookback_window :
    (∀ args, SyncHubstaff.get_lookback_days args ≤ 90) ∧
    (∀ s n rest, SyncHubstaff.pyInt? s = some n →
      SyncHubstaff.get_lookback_days ("--backfill".data :: s :: rest) = min n 90) ∧
    (∀ args, "--backfill".data ∉ args → SyncHubstaff.get_lookback_days args = 14) ∧
    (∀ pre, "--backfill".data ∉ pre →
      SyncHubstaff.get_lookback_days (pre ++ ["--backfill".data]) = 14) ∧
    (∀ s, SyncHubstaff.pyInt? s = none →
      SyncHubstaff.get_lookback_days ["--backfill".data, s] = 14) := by
  have hdef : ∀ a, SyncHubstaff.get_lookback_days [a] = 14 := fun a => rfl
  have hsome : ∀ s n rest, SyncHubstaff.pyInt? s = some n →
      SyncHubstaff.get_lookback_days ("--backfill".data :: s :: rest) = min n 90 := by
    intro s n rest hp
    rw [SyncHubstaff.get_lookback_days, if_pos rfl, hp]
    rfl
  have hnone : ∀ s rest, SyncHubstaff.pyInt? s = none →
      SyncHubstaff.get_lookback_days ("--backfill".data :: s :: rest) =
        SyncHubstaff.get_lookback_days (s :: rest) := by
    intro s rest hp
    rw [SyncHubstaff.get_lookback_days, if_pos rfl, hp]
  have hskip : ∀ a s rest, a ≠ "--backfill".data →
      SyncHubstaff.get_lookback_days (a :: s :: rest) =
        SyncHubstaff.get_lookback_days (s :: rest) := by
    intro a s rest ha
    rw [SyncHubstaff.get_lookback_days, if_neg ha]
  refine ⟨?_, hsome, ?_, ?_, ?_⟩
  · intro args
    induction args using SyncHubstaff.get_lookback_days.induct with
    | case1 b rest n hp => rw [hsome b n rest hp]; exact min_le_right n 90
    | case2 b rest hp ih => rw [hnone b rest hp]; exact ih
    | case3 a b rest ha ih => rw [hskip a b rest ha]; exact ih
    | case4 t ht =>
      rcases t with _ | ⟨a, t⟩
      · decide
      · rcases t with _ | ⟨b, t⟩
        · rw [hdef a]; norm_num
        · exact absurd rfl (ht a b t)
  · intro args hmem
    induction args using SyncHubstaff.get_lookback_days.induct with
    | case1 b rest n hp => exact absurd (List.mem_cons_self _ _) hmem
    | case2 b rest hp ih => exact absurd (List.mem_cons_self _ _) hmem
    | case3 a b rest ha ih =>
      rw [hskip a b rest ha]
      exact ih (fun hb => hmem (List.mem_cons_of_mem a hb))
    | case4 t ht =>
      rcases t with _ | ⟨a, t⟩
      · rfl
      · rcases t with _ | ⟨b, t⟩
        · exact hdef a
        · exact absurd rfl (ht a b t)
  · intro pre
    induction pre with
    | nil => intro _; exact hdef _
    | cons p pre ih =>
      intro hmem
      have hp : p ≠ "--backfill".data := fun h => hmem (h ▸ List.mem_cons_self _ _)
      rcases pre with _ | ⟨q, pre'⟩
      · rw [List.cons_append, List.nil_append, hskip p _ [] hp]
        exact hdef _
      · rw [List.cons_append, List.cons_append, hskip p q _ hp, ← List.cons_append]
        exact ih (fun hb => hmem (List.mem_cons_of_mem p hb))
  · intro s hp
    rw [hnone s [] hp]
    exact hdef s

/-- Witness for C10 at a concrete over-limit backfill argument. -/
theorem C10_witness :
    SyncHubstaff.get_lookback_days ["--backfill".data, "200".data] = min 200 90 :=
  C10_lookback_window.2.1 "200".data 200 [] (by decide)

namespace MigrateAirtable

lemma bestLoop_of_le {r : List Char → List Char → ℚ} {norm : List Char} :
    ∀ (l : List (List Char × ChatterM)) (acc : ℚ × Option ChatterM),
      (∀ kc ∈ l, r norm kc.1 ≤ acc.1) → bestLoop r norm acc l = acc := by
  intro l
  induction l with
  | nil => intro acc _; rfl
  | cons kc t ih =>
    intro acc h
    have hk : ¬(acc.1 < r norm kc.1) :=
      not_lt.2 (h kc (List.mem_cons_self kc t))
    show bestLoop r norm (if acc.1 < r norm kc.1 then _ else acc) t = acc
    rw [if_neg hk]
    exact ih acc (fun kc' h' => h kc' (List.mem_cons_of_mem kc h'))

lemma bestLoop_shape {r : List Char → List Char → ℚ} {norm : List Char} :
    ∀ (l : List (List Char × ChatterM)) (acc : ℚ × Option ChatterM),
      bestLoop r norm acc l = acc ∨
        ∃ k c, (k, c) ∈ l ∧ bestLoop r norm acc l = (r norm k, some c) := by
  intro l
  induction l with
  | nil => intro acc; exact Or.inl rfl
  | cons kc t ih =>
    intro acc
    have hstep : bestLoop r norm acc (kc :: t) =
        bestLoop r norm
          (if acc.1 < r norm kc.1 then (r norm kc.1, some kc.2) else acc) t := rfl
    rw [hstep]
    by_cases hk : acc.1 < r norm kc.1
    · rw [if_pos hk]
      rcases ih (r norm kc.1, some kc.2) with h | ⟨k', c', hm, he⟩
      · exact Or.inr ⟨kc.1, kc.2, List.mem_cons_self kc t, h⟩
      · exact Or.inr ⟨k', c', List.mem_cons_of_mem kc hm, he⟩
    · rw [if_neg hk]
      rcases ih acc with h | ⟨k', c', hm, he⟩
      · exact Or.inl h
      · exact Or.inr ⟨k', c', List.mem_cons_of_mem kc hm, he⟩

lemma bestLoop_lt {r : List Char → List Char → ℚ} {norm : List Char} {q : ℚ} :
    ∀ (l : List (List Char × ChatterM)) (acc : ℚ × Option ChatterM),
      (∀ kc ∈ l, r norm kc.1 < q) → acc.1 < q → (bestLoop r norm acc l).1 < q := by
  intro l
  induction l with
  | nil => intro acc _ hacc; exact hacc
  | cons kc t ih =>
    intro acc h hacc
    show (bestLoop r norm (if acc.1 < r norm kc.1 then (r norm kc.1, some kc.2) else acc) t).1 < q
    by_cases hk : acc.1 < r norm kc.1
    · rw [if_pos hk]
      exact ih _ (fun kc' h' => h kc' (List.mem_cons_of_mem kc h'))
        (h kc (List.mem_cons_self kc t))
    · rw [if_neg hk]
      exact ih acc (fun kc' h' => h kc' (List.mem_cons_of_mem kc h')) hacc

lemma bestLoop_first_max {r : List Char → List Char → ℚ} {norm k : List Char}
    {c : ChatterM} :
    ∀ (pre : List (List Char × ChatterM)) (acc : ℚ × Option ChatterM)
      (suf : List (List Char × ChatterM)),
      acc.1 < r norm k → (∀ kc ∈ pre, r norm kc.1 < r norm k) →
      (∀ kc ∈ suf, r norm kc.1 ≤ r norm k) →
      bestLoop r norm acc (pre ++ (k, c) :: suf) = (r norm k, some c) := by
  intro pre
  induction pre with
  | nil =>
    intro acc suf hacc _ hsuf
    show bestLoop r norm (if acc.1 < r norm k then (r norm k, some c) else acc) suf = _
    rw [if_pos hacc]
    exact bestLoop_of_le suf _ hsuf
  | cons kc t ih =>
    intro acc suf hacc hpre hsuf
    show bestLoop r norm (if acc.1 < r norm kc.1 then (r norm kc.1, some kc.2) else acc)
      (t ++ (k, c) :: suf) = _
    by_cases hk : acc.1 < r norm kc.1
    · rw [if_pos hk]
      exact ih _ suf (hpre kc (List.mem_cons_self kc t))
        (fun kc' h' => hpre kc' (List.mem_cons_of_mem kc h')) hsuf
    · rw [if_neg hk]
      exact ih acc suf hacc (fun kc' h' => hpre kc' (List.mem_cons_of_mem kc h')) hsuf

end MigrateAirtable

/-- Claim C7: for any similarity oracle with `ratio(s, s) = 1` (as
`SequenceMatcher.ratio` has), the fuzzy matcher (a) only returns a candidate
whose ratio to the normalized input is at least 0.75, (b) returns no match
when every candidate is strictly below 0.75, and (c) with no exact hit
returns the first-seen candidate attaining the best ratio once that best is
at least 0.75. -/
theorem C7_fuzzy_threshold (ratio : List Char → List Char → ℚ)
    (name : List Char) (cmap : List (List Char × MigrateAirtable.ChatterM))
    (hrefl : ∀ s, ratio s s = 1) :
    (∀ c, MigrateAirtable.fuzzy_match_chatter ratio name cmap = some c →
      ∃ k, (k, c) ∈ cmap ∧ 3/4 ≤ ratio (PyStr.normalize_name name) k) ∧
    ((∀ kc ∈ cmap, ratio (PyStr.normalize_name name) kc.1 < 3/4) →
      MigrateAirtable.fuzzy_match_chatter ratio name cmap = none) ∧
    (∀ pre k c suf, cmap = pre ++ (k, c) :: suf →
      dictGet? cmap (PyStr.normalize_name name) = none →
      3/4 ≤ ratio (PyStr.normalize_name name) k →
      (∀ kc ∈ pre, ratio (PyStr.normalize_name name) kc.1 <
        ratio (PyStr.normalize_name name) k) →
      (∀ kc ∈ cmap, ratio (PyStr.normalize_name name) kc.1 ≤
        ratio (PyStr.normalize_name name) k) →
      MigrateAirtable.fuzzy_match_chatter ratio name cmap = some c) := by
  refine ⟨?_, ?_, ?_⟩
  · intro c hc
    rcases hd : dictGet? cmap (PyStr.normalize_name name) with _ | c0
    · simp only [MigrateAirtable.fuzzy_match_chatter, hd] at hc
      rcases @MigrateAirtable.bestLoop_shape ratio
          (PyStr.normalize_name name) cmap (0, none) with
        hsh | ⟨k, c', hm, hsh⟩
      · rw [hsh] at hc
        split at hc
        · exact absurd hc (by simp)
        · exact absurd hc (by simp)
      · rw [hsh] at hc
        split at hc
        · simp only [Option.some.injEq] at hc
          subst hc
          exact ⟨k, hm, by assumption⟩
        · exact absurd hc (by simp)
    · simp only [MigrateAirtable.fuzzy_match_chatter, hd, Option.some.injEq] at hc
      subst hc
      rcases hf : cmap.find? (fun p => p.1 = PyStr.normalize_name name) with _ | p
      · rw [dictGet?, hf] at hd
        exact absurd hd (by simp)
      · rw [dictGet?, hf] at hd
        simp at hd
        have hkey : p.1 = PyStr.normalize_name name := by
          simpa using List.find?_some hf
        refine ⟨p.1, ?_, ?_⟩
        · rw [← hd]
          have : (p.1, p.2) = p := rfl
          rw [this]
          exact List.mem_of_find?_eq_some hf
        · rw [hkey, hrefl (PyStr.normalize_name name)]
          norm_num
  · intro hall
    rcases hd : dictGet? cmap (PyStr.normalize_name name) with _ | c0
    · simp only [MigrateAirtable.fuzzy_match_chatter, hd]
      have hlt : (MigrateAirtable.bestLoop ratio (PyStr.normalize_name name)
          ((0 : ℚ), none) cmap).1 < 3/4 :=
        MigrateAirtable.bestLoop_lt cmap (0, none) hall (by norm_num)
      rw [if_neg (not_le.2 hlt)]
    · exfalso
      rcases hf : cmap.find? (fun p => p.1 = PyStr.normalize_name name) with _ | p
      · rw [dictGet?, hf] at hd
        exact absurd hd (by simp)
      · have hkey : p.1 = PyStr.normalize_name name := by
          simpa using List.find?_some hf
        have := hall p (List.mem_of_find?_eq_some hf)
        rw [hkey, hrefl (PyStr.normalize_name name)] at this
        norm_num at this
  · intro pre k c suf hsplit hd hge hpre hall
    simp only [MigrateAirtable.fuzzy_match_chatter, hd]
    have hloop : MigrateAirtable.bestLoop ratio (PyStr.normalize_name name)
        ((0 : ℚ), none) cmap = (ratio (PyStr.normalize_name name) k, some c) := by
      rw [hsplit]
      refine MigrateAirtable.bestLoop_first_max pre (0, none) suf ?_ hpre ?_
      · have h0 : (0:ℚ) < 3/4 := by norm_num
        exact lt_of_lt_of_le h0 hge
      · intro kc hkc
        exact hall kc (hsplit ▸ List.mem_append_right pre (List.mem_cons_of_mem _ hkc))
    rw [hloop, if_pos hge]

/-- Witness for C7: a concrete oracle and directory where the fallback
accepts the unique candidate at ratio 9/10 ≥ 0.75. -/
theorem C7_witness :
    MigrateAirtable.fuzzy_match_chatter
      (fun a b => if a = b then (1 : ℚ) else if a.length = b.length then 9/10 else 0)
      " ANA ".data
      [("abcd".data, ⟨"1".data, "M".data⟩), ("xyz".data, ⟨"2".data, "X".data⟩)] =
      some ⟨"2".data, "X".data⟩ := by
  have hn : PyStr.normalize_name " ANA ".data = "ana".data := by decide
  refine (C7_fuzzy_threshold
      (fun a b => if a = b then (1 : ℚ) else if a.length = b.length then 9/10 else 0)
      " ANA ".data
      [("abcd".data, ⟨"1".data, "M".data⟩), ("xyz".data, ⟨"2".data, "X".data⟩)]
      (fun s => by simp)).2.2
    [("abcd".data, ⟨"1".data, "M".data⟩)] "xyz".data ⟨"2".data, "X".data⟩ []
    rfl (by decide) ?_ ?_ ?_
  · rw [hn, if_neg (by decide), if_pos (by decide)]
    norm_num
  · intro kc hk
    rw [List.mem_singleton] at hk
    subst hk
    rw [hn]
    rw [if_neg (by decide), if_neg (by decide), if_neg (by decide), if_pos (by decide)]
    norm_num
  · intro kc hk
    simp only [List.mem_cons, List.mem_singleton, List.not_mem_nil, or_false] at hk
    rcases hk with rfl | rfl
    · rw [hn]
      rw [if_neg (by decide), if_neg (by decide), if_neg (by decide), if_pos (by decide)]
      norm_num
    · rw [hn]

namespace GenerateCoaching

lemma processStat_chatter_name {todayStr tl : List Char} {s : Stat} {d : ℤ}
    {fl : List Flag} {t : CoachingTask}
    (h : processStat todayStr tl s d fl = some t) :
    t.chatter_name = s.employee_name := by
  rw [processStat] at h
  split at h
  · exact absurd h (by simp)
  · simp only [Option.some.injEq] at h
    rw [← h]

lemma foldlM_tasks_mem {γ : Type} {Q : CoachingTask → γ → Prop}
    (f : List CoachingTask → γ → Except (List Char) (List CoachingTask))
    (hf : ∀ acc b acc', f acc b = .ok acc' → ∀ t ∈ acc', t ∈ acc ∨ Q t b) :
    ∀ (l : List γ) (acc ts : List CoachingTask),
      l.foldlM f acc = .ok ts → ∀ t ∈ ts, t ∈ acc ∨ ∃ b ∈ l, Q t b := by
  intro l
  induction l with
  | nil =>
    intro acc ts hfold t ht
    rw [List.foldlM_nil] at hfold
    simp only [pure, Except.pure, Except.ok.injEq] at hfold
    subst hfold
    exact Or.inl ht
  | cons b l ih =>
    intro acc ts hfold t ht
    rw [List.foldlM_cons] at hfold
    rcases hstep : f acc b with e | acc'
    · rw [hstep] at hfold
      exact absurd hfold (by simp [Bind.bind, Except.bind])
    · rw [hstep] at hfold
      have hfold' : l.foldlM f acc' = .ok ts := by
        simpa [Bind.bind, Except.bind] using hfold
      rcases ih acc' ts hfold' t ht with hin | ⟨b', hb', hq⟩
      · rcases hf acc b acc' hstep t hin with hin' | hq
        · exact Or.inl hin'
        · exact Or.inr ⟨b, List.mem_cons_self b l, hq⟩
      · exact Or.inr ⟨b', List.mem_cons_of_mem b hb', hq⟩

end GenerateCoaching

/-- Claim C8: a stats row is evaluated (survives `get_chatter_performance`)
iff it came in with at least 4 clocked hours and its name key matches an
active chatter-role roster member of the processed team; a row with fewer
than 4 clocked hours is never evaluated; and every task a team run creates
carries the name of an evaluated row. -/
theorem C8_min_hours_gate :
    (∀ roster stats team (s : GenerateCoaching.Stat),
      s ∈ GenerateCoaching.get_chatter_performance roster stats team ↔
        (s ∈ stats ∧
          (∃ c ∈ roster, c.team_name = team ∧ c.status = "Active".data ∧
            c.airtable_role = "Chatter".data ∧
            PyStr.nameKey c.full_name = PyStr.nameKey s.employee_name) ∧
          4 ≤ s.clocked_hours.getD 0)) ∧
    (∀ roster stats team (s : GenerateCoaching.Stat),
      s.clocked_hours.getD 0 < 4 →
      s ∉ GenerateCoaching.get_chatter_performance roster stats team) ∧
    (∀ roster stats hist today todayStr tl team ts t,
      GenerateCoaching.runTeam roster stats hist today todayStr tl team = .ok ts →
      t ∈ ts →
      ∃ s ∈ GenerateCoaching.get_chatter_performance roster stats team,
        t.chatter_name = s.employee_name ∧ 4 ≤ s.clocked_hours.getD 0) := by
  have hmem : ∀ roster stats team (s : GenerateCoaching.Stat),
      s ∈ GenerateCoaching.get_chatter_performance roster stats team ↔
        (s ∈ stats ∧
          (∃ c ∈ roster, c.team_name = team ∧ c.status = "Active".data ∧
            c.airtable_role = "Chatter".data ∧
            PyStr.nameKey c.full_name = PyStr.nameKey s.employee_name) ∧
          4 ≤ s.clocked_hours.getD 0) := by
    intro roster stats team s
    simp only [GenerateCoaching.get_chatter_performance,
      GenerateCoaching.fetchTeamChatters, List.mem_filter, List.mem_map,
      decide_eq_true_eq, Function.comp]
    constructor
    · rintro ⟨hs, ⟨⟨c, ⟨hc, hteam, hstatus, hrole⟩, hkey⟩, hh⟩⟩
      exact ⟨hs, ⟨c, hc, hteam, hstatus, hrole, hkey⟩, hh⟩
    · rintro ⟨hs, ⟨c, hc, hteam, hstatus, hrole, hkey⟩, hh⟩
      exact ⟨hs, ⟨⟨c, ⟨hc, hteam, hstatus, hrole⟩, hkey⟩, hh⟩⟩
  refine ⟨hmem, ?_, ?_⟩
  · intro roster stats team s hlow hin
    exact absurd ((hmem roster stats team s).1 hin).2.2 (not_le.2 hlow)
  · intro roster stats hist today todayStr tl team ts t hrun ht
    have hprov := @GenerateCoaching.foldlM_tasks_mem GenerateCoaching.Stat
      (fun t s => t.chatter_name = s.employee_name) _
      (fun acc s acc' hstep t' ht' => ?_) _ [] ts hrun t ht
    · rcases hprov with hin | ⟨s, hs, hname⟩
      · exact absurd hin (List.not_mem_nil t)
      · exact ⟨s, hs, hname, ((hmem roster stats team s).1 hs).2.2⟩
    · rcases hflags : GenerateCoaching.identify_red_flags s with e | flags
      · rw [show (do
            let days := GenerateCoaching.get_last_coaching today (hist s.employee_name)
            let flags ← GenerateCoaching.identify_red_flags s
            match GenerateCoaching.processStat todayStr tl s days flags with
            | some t => pure (acc ++ [t])
            | none => pure acc : Except (List Char) (List GenerateCoaching.CoachingTask)) =
          Except.error e from by simp [hflags, Bind.bind, Except.bind]] at hstep
        exact absurd hstep (by simp)
      · have hstep' :
            (match GenerateCoaching.processStat todayStr tl s
              (GenerateCoaching.get_last_coaching today (hist s.employee_name)) flags with
            | some t => pure (acc ++ [t])
            | none => pure acc : Except (List Char) (List GenerateCoaching.CoachingTask)) =
            Except.ok acc' := by
          rw [← hstep]
          simp [hflags, Bind.bind, Except.bind]
        rcases hps : GenerateCoaching.processStat todayStr tl s
            (GenerateCoaching.get_last_coaching today (hist s.employee_name)) flags with
          _ | t0
        · rw [hps] at hstep'
          simp only [pure, Except.pure, Except.ok.injEq] at hstep'
          subst hstep'
          exact Or.inl ht'
        · rw [hps] at hstep'
          simp only [pure, Except.pure, Except.ok.injEq] at hstep'
          subst hstep'
          rcases List.mem_append.1 ht' with hin | hone
          · exact Or.inl hin
          · rw [List.mem_singleton] at hone
            subst hone
            exact Or.inr (GenerateCoaching.processStat_chatter_name hps)

/-- Witness for C8: a concrete run creating one task, whose name traces back
to an evaluated row with 5 clocked hours. -/
theorem C8_witness :
    ∃ s ∈ GenerateCoaching.get_chatter_performance
      [⟨"Ann Lee".data, "Team X".data, "Active".data, "Chatter".data⟩]
      [⟨"Ann Lee".data, some 50, some 10, some 45, some 25, some 5, some 100, some 3⟩]
      "Team X".data,
      (⟨"d".data, "Ann Lee".data, "Tl".data, 2, some 45, 999, [], [],
        ⟨100, 45, 50, 10, 25, 3, 5⟩⟩ : GenerateCoaching.CoachingTask).chatter_name =
        s.employee_name ∧ 4 ≤ s.clocked_hours.getD 0 :=
  C8_min_hours_gate.2.2
    [⟨"Ann Lee".data, "Team X".data, "Active".data, "Chatter".data⟩]
    [⟨"Ann Lee".data, some 50, some 10, some 45, some 25, some 5, some 100, some 3⟩]
    (fun _ => none) 0 "d".data "tl".data "Team X".data
    [⟨"d".data, "Ann Lee".data, "Tl".data, 2, some 45, 999, [], [],
      ⟨100, 45, 50, 10, 25, 3, 5⟩⟩]
    ⟨"d".data, "Ann Lee".data, "Tl".data, 2, some 45, 999, [], [],
      ⟨100, 45, 50, 10, 25, 3, 5⟩⟩
    rfl (List.mem_singleton.2 rfl)

namespace SyncHubstaff

lemma syncStep_matched {byId : List (ℕ × List Char)}
    {byName : List (List Char × List Char)} {mem : List (ℕ × List Char)}
    {a : Activity} {cid : List Char} {strat : Strategy} {st : SyncState}
    {d : List Char}
    (hres : resolveAct byId byName mem a = some (cid, strat))
    (hd : a.date = some d) (hdne : d ≠ [])
    (hh : 0 < pyRound2 ((a.tracked.getD 0 : ℚ) / 3600)) :
    (syncStep byId byName mem st a).rows =
      (if dedupKey cid d ∈ st.seen
       then mergeRow st.rows cid d (pyRound2 ((a.tracked.getD 0 : ℚ) / 3600))
       else st.rows ++ [⟨cid, d, pyRound2 ((a.tracked.getD 0 : ℚ) / 3600)⟩]) ∧
    (syncStep byId byName mem st a).seen =
      (if dedupKey cid d ∈ st.seen then st.seen else st.seen ++ [dedupKey cid d]) := by
  cases strat <;>
    refine ⟨?_, ?_⟩ <;>
    · simp only [syncStep, hres, hd, Option.getD_some]
      rw [if_pos ⟨hdne, hh⟩]
      by_cases hseen : dedupKey cid d ∈ st.seen
      · rw [if_pos hseen, if_pos hseen]
      · rw [if_neg hseen, if_neg hseen]

end SyncHubstaff

/-- Claim C3: two hour observations (in different source organizations,
each with its own member directory) that resolve to the same identity on
the same date produce exactly one `chatter_hours` row whose value is
`round(h1 + h2, 2)` for the observations' hours `h1`, `h2`, and the result
is the same in either processing order. -/
theorem C3_hours_merge_sum (chatters : List SyncHubstaff.ChatterRec)
    (m1 m2 : List (ℕ × List Char)) (a1 a2 : SyncHubstaff.Activity)
    (cid d : List Char) (s1 s2 : SyncHubstaff.Strategy)
    (h1 : SyncHubstaff.resolveAct (SyncHubstaff.buildMaps chatters).1
      (SyncHubstaff.buildMaps chatters).2 m1 a1 = some (cid, s1))
    (h2 : SyncHubstaff.resolveAct (SyncHubstaff.buildMaps chatters).1
      (SyncHubstaff.buildMaps chatters).2 m2 a2 = some (cid, s2))
    (hd1 : a1.date = some d) (hd2 : a2.date = some d) (hdne : d ≠ [])
    (hh1 : 0 < pyRound2 ((a1.tracked.getD 0 : ℚ) / 3600))
    (hh2 : 0 < pyRound2 ((a2.tracked.getD 0 : ℚ) / 3600)) :
    (SyncHubstaff.syncRun chatters [(m1, [a1]), (m2, [a2])]).rows =
      [⟨cid, d, pyRound2 (pyRound2 ((a1.tracked.getD 0 : ℚ) / 3600) +
        pyRound2 ((a2.tracked.getD 0 : ℚ) / 3600))⟩] ∧
    (SyncHubstaff.syncRun chatters [(m2, [a2]), (m1, [a1])]).rows =
      [⟨cid, d, pyRound2 (pyRound2 ((a1.tracked.getD 0 : ℚ) / 3600) +
        pyRound2 ((a2.tracked.getD 0 : ℚ) / 3600))⟩] := by
  constructor
  · have e1 : SyncHubstaff.syncRun chatters [(m1, [a1]), (m2, [a2])] =
        SyncHubstaff.syncStep (SyncHubstaff.buildMaps chatters).1
          (SyncHubstaff.buildMaps chatters).2 m2
          (SyncHubstaff.syncStep (SyncHubstaff.buildMaps chatters).1
            (SyncHubstaff.buildMaps chatters).2 m1 SyncHubstaff.initState a1) a2 := rfl
    obtain ⟨hr1, hs1⟩ :=
      @SyncHubstaff.syncStep_matched _ _ _ _ _ _ SyncHubstaff.initState _ h1 hd1 hdne hh1
    rw [show SyncHubstaff.initState.seen = [] from rfl] at hr1 hs1
    rw [if_neg (List.not_mem_nil _)] at hr1 hs1
    rw [show SyncHubstaff.initState.rows = [] from rfl] at hr1
    rw [List.nil_append] at hr1 hs1
    obtain ⟨hr2, _⟩ := @SyncHubstaff.syncStep_matched _ _ _ _ _ _
      (SyncHubstaff.syncStep (SyncHubstaff.buildMaps chatters).1
        (SyncHubstaff.buildMaps chatters).2 m1 SyncHubstaff.initState a1) _
      h2 hd2 hdne hh2
    rw [hs1, if_pos (List.mem_singleton.2 rfl), hr1] at hr2
    rw [e1, hr2]
    simp [SyncHubstaff.mergeRow]
  · have e1 : SyncHubstaff.syncRun chatters [(m2, [a2]), (m1, [a1])] =
        SyncHubstaff.syncStep (SyncHubstaff.buildMaps chatters).1
          (SyncHubstaff.buildMaps chatters).2 m1
          (SyncHubstaff.syncStep (SyncHubstaff.buildMaps chatters).1
            (SyncHubstaff.buildMaps chatters).2 m2 SyncHubstaff.initState a2) a1 := rfl
    obtain ⟨hr1, hs1⟩ :=
      @SyncHubstaff.syncStep_matched _ _ _ _ _ _ SyncHubstaff.initState _ h2 hd2 hdne hh2
    rw [show SyncHubstaff.initState.seen = [] from rfl] at hr1 hs1
    rw [if_neg (List.not_mem_nil _)] at hr1 hs1
    rw [show SyncHubstaff.initState.rows = [] from rfl] at hr1
    rw [List.nil_append] at hr1 hs1
    obtain ⟨hr2, _⟩ := @SyncHubstaff.syncStep_matched _ _ _ _ _ _
      (SyncHubstaff.syncStep (SyncHubstaff.buildMaps chatters).1
        (SyncHubstaff.buildMaps chatters).2 m2 SyncHubstaff.initState a2) _
      h1 hd1 hdne hh1
    rw [hs1, if_pos (List.mem_singleton.2 rfl), hr1] at hr2
    rw [e1, hr2]
    simp [SyncHubstaff.mergeRow]
    rw [add_comm]

/-- Witness for C3: one chatter observed in two organizations (by key in
one, by name in the other) on the same date; 3600 s and 1800 s merge into a
single 1.5-hour row in either order. -/
theorem C3_witness :
    (SyncHubstaff.syncRun [⟨"c1".data, "Ann".data, some 5⟩]
      [([(5, "Bea".data)], [⟨some 5, some 3600, some "0101".data⟩]),
       ([(7, "Ann".data)], [⟨some 7, some 1800, some "0101".data⟩])]).rows =
      [⟨"c1".data, "0101".data,
        pyRound2 (pyRound2 ((((some 3600 : Option ℕ).getD 0 : ℕ) : ℚ) / 3600) +
          pyRound2 ((((some 1800 : Option ℕ).getD 0 : ℕ) : ℚ) / 3600))⟩] ∧
    (SyncHubstaff.syncRun [⟨"c1".data, "Ann".data, some 5⟩]
      [([(7, "Ann".data)], [⟨some 7, some 1800, some "0101".data⟩]),
       ([(5, "Bea".data)], [⟨some 5, some 3600, some "0101".data⟩])]).rows =
      [⟨"c1".data, "0101".data,
        pyRound2 (pyRound2 ((((some 3600 : Option ℕ).getD 0 : ℕ) : ℚ) / 3600) +
          pyRound2 ((((some 1800 : Option ℕ).getD 0 : ℕ) : ℚ) / 3600))⟩] :=
  C3_hours_merge_sum [⟨"c1".data, "Ann".data, some 5⟩]
    [(5, "Bea".data)] [(7, "Ann".data)]
    ⟨some 5, some 3600, some "0101".data⟩ ⟨some 7, some 1800, some "0101".data⟩
    "c1".data "0101".data SyncHubstaff.Strategy.byKey SyncHubstaff.Strategy.byName
    rfl rfl rfl rfl (by decide)
    (by norm_num [pyRound2, roundHalfEven])
    (by norm_num [pyRound2, roundHalfEven])

namespace SyncHubstaff

lemma mergeRow_map_key (rows : List HoursRow) (cid d : List Char) (h : ℚ) :
    (mergeRow rows cid d h).map (fun r => (r.chatter_id, r.date)) =
      rows.map (fun r => (r.chatter_id, r.date)) := by
  induction rows with
  | nil => rfl
  | cons r rs ih =>
    rw [mergeRow]
    by_cases hc : r.chatter_id = cid ∧ r.date = d
    · rw [if_pos hc]
      simp
    · rw [if_neg hc]
      simp [ih]

lemma syncStep_rows_seen (byId : List (ℕ × List Char))
    (byName : List (List Char × List Char)) (mem : List (ℕ × List Char))
    (st : SyncState) (a : Activity) :
    ((syncStep byId byName mem st a).rows = st.rows ∧
      (syncStep byId byName mem st a).seen = st.seen) ∨
    (∃ cid d h,
      (dedupKey cid d ∈ st.seen ∧
        (syncStep byId byName mem st a).rows = mergeRow st.rows cid d h ∧
        (syncStep byId byName mem st a).seen = st.seen) ∨
      (dedupKey cid d ∉ st.seen ∧
        (syncStep byId byName mem st a).rows = st.rows ++ [⟨cid, d, h⟩] ∧
        (syncStep byId byName mem st a).seen = st.seen ++ [dedupKey cid d])) := by
  rcases hres : resolveAct byId byName mem a with _ | ⟨cid, strat⟩
  · left
    simp only [syncStep, hres]
    by_cases hn : userNameOf mem a ≠ []
    · rw [if_pos hn]
      exact ⟨rfl, rfl⟩
    · rw [if_neg hn]
      exact ⟨rfl, rfl⟩
  · by_cases hcond : a.date.getD [] ≠ [] ∧ 0 < pyRound2 ((a.tracked.getD 0 : ℚ) / 3600)
    · right
      refine ⟨cid, a.date.getD [], pyRound2 ((a.tracked.getD 0 : ℚ) / 3600), ?_⟩
      by_cases hseen : dedupKey cid (a.date.getD []) ∈ st.seen
      · left
        refine ⟨hseen, ?_, ?_⟩ <;>
          · simp only [syncStep, hres]
            cases strat <;>
              · rw [if_pos hcond, if_pos hseen]
      · right
        refine ⟨hseen, ?_, ?_⟩ <;>
          · simp only [syncStep, hres]
            cases strat <;>
              · rw [if_pos hcond, if_neg hseen]
    · left
      constructor <;>
        · simp only [syncStep, hres]
          cases strat <;>
            · rw [if_neg hcond]

lemma rowsInv_step (byId : List (ℕ × List Char))
    (byName : List (List Char × List Char)) (mem : List (ℕ × List Char))
    (st : SyncState) (a : Activity) (h : rowsInv st) :
    rowsInv (syncStep byId byName mem st a) := by
  obtain ⟨hkeys, hpair⟩ := h
  rcases syncStep_rows_seen byId byName mem st a with
    ⟨hr, hs⟩ | ⟨cid, d, hq, ⟨hseen, hr, hs⟩ | ⟨hseen, hr, hs⟩⟩
  · exact ⟨fun r hrm => hs ▸ hkeys r (hr ▸ hrm), hr ▸ hpair⟩
  · constructor
    · intro r hrm
      rw [hr] at hrm
      have hmap : (r.chatter_id, r.date) ∈
          (mergeRow st.rows cid d hq).map (fun r => (r.chatter_id, r.date)) :=
        List.mem_map.2 ⟨r, hrm, rfl⟩
      rw [mergeRow_map_key] at hmap
      obtain ⟨r0, hr0, heq⟩ := List.mem_map.1 hmap
      have h1 : r0.chatter_id = r.chatter_id := congrArg Prod.fst heq
      have h2 : r0.date = r.date := congrArg Prod.snd heq
      rw [hs, ← h1, ← h2]
      exact hkeys r0 hr0
    · rw [hr]
      have hmapped := mergeRow_map_key st.rows cid d hq
      have hold : List.Pairwise
          (fun p q : List Char × List Char => ¬(p.1 = q.1 ∧ p.2 = q.2))
          (st.rows.map (fun r => (r.chatter_id, r.date))) :=
        (List.pairwise_map).2 hpair
      have hnew : List.Pairwise
          (fun p q : List Char × List Char => ¬(p.1 = q.1 ∧ p.2 = q.2))
          ((mergeRow st.rows cid d hq).map (fun r => (r.chatter_id, r.date))) := by
        rw [hmapped]
        exact hold
      exact (List.pairwise_map).1 hnew
  · constructor
    · intro r hrm
      rw [hr] at hrm
      rw [hs]
      rcases List.mem_append.1 hrm with hin | hone
      · exact List.mem_append_left _ (hkeys r hin)
      · rw [List.mem_singleton] at hone
        subst hone
        exact List.mem_append_right _ (List.mem_singleton.2 rfl)
    · rw [hr]
      rw [List.pairwise_append]
      refine ⟨hpair, List.pairwise_singleton _ _, ?_⟩
      intro r hin r' hone
      rw [List.mem_singleton] at hone
      subst hone
      intro ⟨hcid, hdate⟩
      apply hseen
      have : dedupKey r.chatter_id r.date = dedupKey cid d := by
        rw [hcid, hdate]
      rw [← this]
      exact hkeys r hin

/-- Claim C5 amended, main content: after any full run, no two pending
rows share a (chatter_id, date) pair, even though double matching (key
then name) of one identity can occur. -/
lemma rowsInv_run (chatters : List ChatterRec)
    (orgs : List (List (ℕ × List Char) × List Activity)) :
    rowsInv (syncRun chatters orgs) := by
  have hacts : ∀ (b : List (ℕ × List Char)) (n : List (List Char × List Char))
      (m : List (ℕ × List Char)) (acts : List Activity) (st : SyncState),
      rowsInv st → rowsInv (acts.foldl (syncStep b n m) st) := by
    intro b n m acts
    induction acts with
    | nil => intro st h; exact h
    | cons a acts ih =>
      intro st h
      exact ih _ (rowsInv_step b n m st a h)
  have horgs : ∀ (orgs' : List (List (ℕ × List Char) × List Activity))
      (st : SyncState), rowsInv st →
      rowsInv (orgs'.foldl
        (fun st org => org.2.foldl
          (syncStep (buildMaps chatters).1 (buildMaps chatters).2 org.1) st) st) := by
    intro orgs'
    induction orgs' with
    | nil => intro st h; exact h
    | cons o os ih =>
      intro st h
      exact ih _ (hacts _ _ _ _ _ h)
  exact horgs orgs initState ⟨fun r hr => absurd hr (List.not_mem_nil r), List.Pairwise.nil⟩

end SyncHubstaff

/-- Claim C5, counterexample: matching an identity by its hubstaff key does
not remove it from the name map. In this run the first observation matches
chatter c9 by key, and the second observation (a different hubstaff user id
whose member name normalizes to the chatter's name) still resolves to the
same chatter by the name fallback, in the same run. -/
theorem C5_counterexample :
    SyncHubstaff.resolveAct
        (SyncHubstaff.buildMaps [⟨"c9".data, "Zoe Ray".data, some 11⟩]).1
        (SyncHubstaff.buildMaps [⟨"c9".data, "Zoe Ray".data, some 11⟩]).2
        [(11, "Zoe R".data)] ⟨some 11, some 7200, none⟩ =
      some ("c9".data, SyncHubstaff.Strategy.byKey) ∧
    SyncHubstaff.resolveAct
        (SyncHubstaff.buildMaps [⟨"c9".data, "Zoe Ray".data, some 11⟩]).1
        (SyncHubstaff.buildMaps [⟨"c9".data, "Zoe Ray".data, some 11⟩]).2
        [(23, "Zoe Ray".data)] ⟨some 23, some 3600, none⟩ =
      some ("c9".data, SyncHubstaff.Strategy.byName) ∧
    (SyncHubstaff.syncRun [⟨"c9".data, "Zoe Ray".data, some 11⟩]
        [([(11, "Zoe R".data)], [⟨some 11, some 7200, none⟩]),
         ([(23, "Zoe Ray".data)], [⟨some 23, some 3600, none⟩])]).matched_by_id
      = 1 ∧
    (SyncHubstaff.syncRun [⟨"c9".data, "Zoe Ray".data, some 11⟩]
        [([(11, "Zoe R".data)], [⟨some 11, some 7200, none⟩]),
         ([(23, "Zoe Ray".data)], [⟨some 23, some 3600, none⟩])]).matched_by_name
      = 1 :=
  ⟨rfl, rfl, rfl, rfl⟩

/-- Claim C5, amended: double matching of one identity (by key and then by
name) is possible within a run, but the accumulator still never holds two
rows with the same (identity, date) pair. -/
theorem C5_no_duplicate_identity_date (chatters : List SyncHubstaff.ChatterRec)
    (orgs : List (List (ℕ × List Char) × List SyncHubstaff.Activity)) :
    List.Pairwise
      (fun r1 r2 : SyncHubstaff.HoursRow =>
        ¬(r1.chatter_id = r2.chatter_id ∧ r1.date = r2.date))
      (SyncHubstaff.syncRun chatters orgs).rows :=
  (SyncHubstaff.rowsInv_run chatters orgs).2

/-- Claim C9, counterexample: an observation whose user id is absent from
the member directory resolves to no identity and gets an empty resolved
name; it is dropped and the run continues (a later observation still
matches), but nothing is recorded in the unmatched report — the claim's
"records it keyed by the raw name" fails for it. -/
theorem C9_counterexample :
    SyncHubstaff.resolveAct
        (SyncHubstaff.buildMaps [⟨"c1".data, "Ann".data, some 5⟩]).1
        (SyncHubstaff.buildMaps [⟨"c1".data, "Ann".data, some 5⟩]).2
        [] ⟨some 42, some 3600, some "0101".data⟩ = none ∧
    (SyncHubstaff.syncRun [⟨"c1".data, "Ann".data, some 5⟩]
        [([], [⟨some 42, some 3600, some "0101".data⟩, ⟨some 5, some 1, none⟩])]).unmatched
      = [] ∧
    (SyncHubstaff.syncRun [⟨"c1".data, "Ann".data, some 5⟩]
        [([], [⟨some 42, some 3600, some "0101".data⟩, ⟨some 5, some 1, none⟩])]).rows
      = [] ∧
    (SyncHubstaff.syncRun [⟨"c1".data, "Ann".data, some 5⟩]
        [([], [⟨some 42, some 3600, some "0101".data⟩, ⟨some 5, some 1, none⟩])]).matched_by_id
      = 1 :=
  ⟨rfl, rfl, rfl, rfl⟩

/-- Claim C9, amended: an observation that resolves to no identity
contributes no hours row, is recorded in the unmatched report keyed by its
resolved raw name only when that name is nonempty (an empty resolved name
is dropped silently), and processing always continues with the remaining
observations — the run never aborts. -/
theorem C9_unmatched_recorded (byId : List (ℕ × List Char))
    (byName : List (List Char × List Char)) (mem : List (ℕ × List Char))
    (st : SyncHubstaff.SyncState) (a : SyncHubstaff.Activity)
    (rest : List SyncHubstaff.Activity)
    (hres : SyncHubstaff.resolveAct byId byName mem a = none) :
    ((a :: rest).foldl (SyncHubstaff.syncStep byId byName mem) st =
      rest.foldl (SyncHubstaff.syncStep byId byName mem)
        (SyncHubstaff.syncStep byId byName mem st a)) ∧
    (SyncHubstaff.syncStep byId byName mem st a).rows = st.rows ∧
    (SyncHubstaff.syncStep byId byName mem st a).seen = st.seen ∧
    (SyncHubstaff.syncStep byId byName mem st a).unmatched =
      (if SyncHubstaff.userNameOf mem a ≠ []
       then dictInsert st.unmatched (SyncHubstaff.userNameOf mem a) a.user_id
       else st.unmatched) := by
  refine ⟨rfl, ?_, ?_, ?_⟩ <;>
    · simp only [SyncHubstaff.syncStep, hres]
      by_cases hn : SyncHubstaff.userNameOf mem a ≠ []
      · simp [hn]
      · simp [hn]

/-- Witness for C9's amended theorem: a named unmatched observation gets
recorded under its raw name and drops no state. -/
theorem C9_witness :
    (([⟨some 42, some 60, some "0303".data⟩] :
        List SyncHubstaff.Activity).foldl
      (SyncHubstaff.syncStep [] [] [(42, "Bob".data)]) SyncHubstaff.initState =
      ([] : List SyncHubstaff.Activity).foldl
        (SyncHubstaff.syncStep [] [] [(42, "Bob".data)])
        (SyncHubstaff.syncStep [] [] [(42, "Bob".data)] SyncHubstaff.initState
          ⟨some 42, some 60, some "0303".data⟩)) ∧
    (SyncHubstaff.syncStep [] [] [(42, "Bob".data)] SyncHubstaff.initState
      ⟨some 42, some 60, some "0303".data⟩).rows = SyncHubstaff.initState.rows ∧
    (SyncHubstaff.syncStep [] [] [(42, "Bob".data)] SyncHubstaff.initState
      ⟨some 42, some 60, some "0303".data⟩).seen = SyncHubstaff.initState.seen ∧
    (SyncHubstaff.syncStep [] [] [(42, "Bob".data)] SyncHubstaff.initState
      ⟨some 42, some 60, some "0303".data⟩).unmatched =
      (if SyncHubstaff.userNameOf [(42, "Bob".data)]
            ⟨some 42, some 60, some "0303".data⟩ ≠ []
       then dictInsert SyncHubstaff.initState.unmatched
         (SyncHubstaff.userNameOf [(42, "Bob".data)]
           ⟨some 42, some 60, some "0303".data⟩)
         (⟨some 42, some 60, some "0303".data⟩ : SyncHubstaff.Activity).user_id
       else SyncHubstaff.initState.unmatched) :=
  C9_unmatched_recorded [] [] [(42, "Bob".data)] SyncHubstaff.initState
    ⟨some 42, some 60, some "0303".data⟩ [] rfl

/-- Claim C6, counterexample: two candidates share the reduced key
"ana lopez", yet the fallback stage returns the first of them (dictionary
iteration order) instead of returning no identity. -/
theorem C6_counterexample :
    MapHubstaffUsers.reducedKey "ana maria lopez".data = "ana lopez".data ∧
    MapHubstaffUsers.reducedKey "ana lopez".data = "ana lopez".data ∧
    MapHubstaffUsers.firstLastFallback "ana x lopez".data
      [("ana maria lopez".data, ⟨"1".data, "Ana Maria Lopez".data⟩),
       ("ana lopez".data, ⟨"2".data, "Ana Lopez".data⟩)] =
      some ⟨"1".data, "Ana Maria Lopez".data⟩ :=
  ⟨rfl, rfl, rfl⟩

/-- Claim C6, amended: with at least two tokens in the incoming normalized
name, the first/last-token stage returns exactly the first candidate in
iteration order whose reduced key equals the incoming reduced key —
uniqueness is not checked, so among several sharers the first inserted
wins; with fewer than two tokens the stage returns nothing. -/
theorem C6_first_last_first_match (norm_hs : List Char)
    (m : List (List Char × MapHubstaffUsers.ChatterC))
    (c : MapHubstaffUsers.ChatterC) :
    MapHubstaffUsers.firstLastFallback norm_hs m = some c ↔
      (2 ≤ (PyStr.pySplit norm_hs).length ∧
       ∃ pre k suf, m = pre ++ (k, c) :: suf ∧
        (PyStr.pySplit norm_hs).headI ++ ' ' :: (PyStr.pySplit norm_hs).getLastI =
          MapHubstaffUsers.reducedKey k ∧
        ∀ kc ∈ pre,
          ¬((PyStr.pySplit norm_hs).headI ++ ' ' :: (PyStr.pySplit norm_hs).getLastI =
            MapHubstaffUsers.reducedKey kc.1)) := by
  by_cases hp : 2 ≤ (PyStr.pySplit norm_hs).length
  · simp only [MapHubstaffUsers.firstLastFallback, if_pos hp]
    constructor
    · intro h
      rcases Option.map_eq_some'.1 h with ⟨⟨k, c'⟩, hfind, hc⟩
      simp only at hc
      subst hc
      rcases List.find?_eq_some.1 hfind with ⟨hpred, pre, suf, hsplit, hpre⟩
      simp only [decide_eq_true_eq] at hpred
      refine ⟨hp, pre, k, suf, hsplit, hpred, ?_⟩
      intro kc hkc
      have := hpre kc hkc
      simpa using this
    · rintro ⟨_, pre, k, suf, hsplit, hkey, hpre⟩
      apply Option.map_eq_some'.2
      refine ⟨(k, c), ?_, rfl⟩
      apply List.find?_eq_some.2
      refine ⟨by simpa using hkey, pre, suf, hsplit, ?_⟩
      intro kc hkc
      simpa using hpre kc hkc
  · simp only [MapHubstaffUsers.firstLastFallback, if_neg hp]
    constructor
    · intro h
      exact absurd h (by simp)
    · rintro ⟨h2, _⟩
      exact absurd h2 hp

/-- Witness for C6's amended theorem: a unique first/last match is indeed
returned. -/
theorem C6_witness :
    MapHubstaffUsers.firstLastFallback "maria j perez".data
      [("ana lopez".data, ⟨"1".data, "Ana Lopez".data⟩),
       ("maria de la perez".data, ⟨"2".data, "Maria".data⟩)] =
      some ⟨"2".data, "Maria".data⟩ :=
  (C6_first_last_first_match "maria j perez".data
      [("ana lopez".data, ⟨"1".data, "Ana Lopez".data⟩),
       ("maria de la perez".data, ⟨"2".data, "Maria".data⟩)]
      ⟨"2".data, "Maria".data⟩).2
    ⟨by decide,
     [("ana lopez".data, ⟨"1".data, "Ana Lopez".data⟩)],
     "maria de la perez".data, [], rfl, by decide,
     by intro kc hkc; rw [List.mem_singleton] at hkc; subst hkc; decide⟩
